import Mathlib

/-!
Verification development for the dynamic schema compiler and model registry of
`nomos` (`src/nomos/utils/schema_loader.py`).

The Python code is shallowly embedded as follows.

* JSON values (the result of `json.load`) are the mutual inductives `Json` /
  `JsonList` / `JsonObj`.  A Python `dict` produced by `json.load` is an
  insertion-ordered association structure with unique keys; `JsonObj` is that
  association structure (uniqueness of keys is taken as a hypothesis where a
  theorem needs it).
* Python (and pydantic) runtime types produced by `_json_type_to_python` /
  `create_base_model` are the mutual inductives `PyType` / `Fields`: `PyType.model`
  is a dynamically created `BaseModel` subclass with its `__name__` and its
  ordered field dictionary; a `Fields` entry carries the resolved field type, the
  pydantic default marker (`...` for required, `None` otherwise) and the optional
  description, exactly the `field_info` dictionaries built by
  `_json_schema_to_pydantic`.
* Raised exceptions become `Except` error values (`SchemaError` lists the
  concrete `raise` sites).
* The registry state `self._schemas : Dict[str, Dict[str, Type[BaseModel]]]` is
  an association list of association lists; methods are state transformers
  returning the (possibly updated) state together with the normal result or the
  raised error.
-/

set_option autoImplicit false

namespace Nomos

/-- The default value recorded for a synthesized field: `Ellipsis` (`...`, the
pydantic "required, no default" marker) when the property is listed in
`required`, and Python `None` otherwise (`default_val = ... if prop_name in
required else None`). -/
inductive DefaultVal where
  | ellipsis
  | pyNone
deriving DecidableEq, Repr

mutual

/-- A JSON value as produced by Python's `json.load`. -/
inductive Json where
  | jnull : Json
  | jbool : Bool → Json
  | jnum : Int → Json
  | jstr : String → Json
  | jarr : JsonList → Json
  | jobj : JsonObj → Json

/-- The elements of a JSON array (a Python `list`). -/
inductive JsonList where
  | nil : JsonList
  | cons : Json → JsonList → JsonList

/-- A JSON object: a Python `dict` in insertion order. -/
inductive JsonObj where
  | nil : JsonObj
  | cons : String → Json → JsonObj → JsonObj

end

mutual

/-- A Python runtime type as returned by `_json_type_to_python`:
one of the primitives `str`, `float`, `int`, `bool`, a dynamically created
pydantic model (`create_base_model`), `Dict[str, Any]`, `List[t]`, or `Any`.
`List[Any]` (the array-without-items case) is `pyList pyAny`. -/
inductive PyType where
  | pyStr : PyType
  | pyFloat : PyType
  | pyInt : PyType
  | pyBool : PyType
  | model : String → Fields → PyType
  | dictStrAny : PyType
  | pyList : PyType → PyType
  | pyAny : PyType

/-- The ordered field dictionary handed to `create_base_model`: each entry is
`fields[prop_name] = field_info` with `field_info` holding the resolved type,
the default marker, and the description when one is present (the source omits
the `description` key when the description string is falsy, embedded here as
`Option.none`). -/
inductive Fields where
  | nil : Fields
  | cons : String → PyType → DefaultVal → Option String → Fields → Fields

end

deriving instance DecidableEq for PyType
deriving instance DecidableEq for Fields
deriving instance DecidableEq for Json
deriving instance DecidableEq for JsonList
deriving instance DecidableEq for JsonObj
deriving instance Repr for PyType
deriving instance Repr for Fields
deriving instance Repr for Json
deriving instance Repr for JsonList
deriving instance Repr for JsonObj

mutual

/-- Size of a JSON value; the termination measure of the recursive compiler. -/
def Json.size : Json → Nat
  | .jarr xs => 1 + xs.size
  | .jobj fs => 1 + fs.size
  | _ => 1

/-- Size of a JSON array. -/
def JsonList.size : JsonList → Nat
  | .nil => 0
  | .cons v rest => 1 + v.size + rest.size

/-- Size of a JSON object. -/
def JsonObj.size : JsonObj → Nat
  | .nil => 0
  | .cons _ v rest => 1 + v.size + rest.size

end

/-- Python `d.get(k)` / `d[k]` / `k in d` on a `dict`: the value at the first
(and, for a genuine `json.load` dict, only) binding of `k`. -/
def JsonObj.find : JsonObj → String → Option Json
  | .nil, _ => none
  | .cons k v rest, key => if k == key then some v else find rest key

/-- Python `s in lst` for a string `s` and a list of JSON values: string
equality holds only against elements that are themselves strings. -/
def JsonList.containsStr : JsonList → String → Bool
  | .nil, _ => false
  | .cons (.jstr s) rest, key => s == key || containsStr rest key
  | .cons _ rest, key => containsStr rest key

/-- View a JSON value as a `dict`.  The compiler's helpers are annotated
`schema: Dict[str, Any]` in the source; a non-mapping value in a position the
source immediately uses as a `dict` would raise `AttributeError` there and is
outside the schema-document vocabulary (spec §6), so the coercion returns the
empty mapping for non-objects. -/
def Json.asObj : Json → JsonObj
  | .jobj fs => fs
  | _ => .nil

/-- Python `doc.get(k)` / `k in doc` on a document value. -/
def Json.getKey (j : Json) (k : String) : Option Json :=
  j.asObj.find k

theorem Json.size_pos (j : Json) : 0 < j.size := by
  cases j <;> simp [Json.size]

theorem JsonObj.find_size : ∀ {fs : JsonObj} {k : String} {v : Json},
    fs.find k = some v → v.size < fs.size
  | .nil, _, _, h => by simp [JsonObj.find] at h
  | .cons k2 v2 rest, k, v, h => by
    simp only [JsonObj.find] at h
    split at h
    · cases h; simp [JsonObj.size]; omega
    · have := JsonObj.find_size h
      simp [JsonObj.size]; omega

theorem Json.asObj_size (j : Json) : j.asObj.size < j.size := by
  cases j <;> simp [Json.asObj, Json.size, JsonObj.size]

/-- The errors the schema subsystem can raise.  Each constructor records one
concrete `raise` site of the source (or, for `duplicateFieldError`, the
factory failure the spec documents); the spec's §7 taxonomy names are noted. -/
inductive SchemaError where
  /-- `FileNotFoundError` in `load_schema` (spec: `SchemaNotFoundError` for a
  missing file). -/
  | fileNotFound : String → SchemaError
  /-- `ValueError: Unsupported schema file type` in `load_schema`
  (spec: `UnsupportedFormatError`). -/
  | unsupportedFileType : String → SchemaError
  /-- `json.JSONDecodeError` from `json.load` (spec: `SchemaDocumentError`). -/
  | documentError : SchemaError
  /-- module import/execution failure in `_load_python_schema`
  (spec: `ModuleLoadError`). -/
  | moduleLoadError : SchemaError
  /-- the Dynamic Type Factory's rejection of duplicate field names
  (spec: `DuplicateFieldError`). -/
  | duplicateFieldError : SchemaError
  /-- `ValueError: Schema '...' not found` in `get_model`
  (spec: `SchemaNotFoundError` for a registry miss). -/
  | schemaNameNotFound : String → SchemaError
  /-- `ValueError: Model '...' not found in schema '...'` in `get_model`
  (spec: `ModelNotFoundError`). -/
  | modelNotFound : String → String → SchemaError
deriving DecidableEq, Repr

namespace Fields

/-- Python `fields[prop_name] = field_info`: replace the binding in place when
the key is already present, append otherwise. -/
def assign (fs : Fields) (name : String) (ty : PyType) (dflt : DefaultVal)
    (descr : Option String) : Fields :=
  match fs with
  | .nil => .cons name ty dflt descr .nil
  | .cons k t d ds rest =>
      if k == name then .cons k ty dflt descr rest
      else .cons k t d ds (assign rest name ty dflt descr)

/-- Lookup of a field's specification by name (first binding). -/
def find : Fields → String → Option (PyType × DefaultVal × Option String)
  | .nil, _ => none
  | .cons k t d ds rest, name => if k == name then some (t, d, ds) else find rest name

/-- The field names, in order. -/
def names : Fields → List String
  | .nil => []
  | .cons k _ _ _ rest => k :: names rest

/-- No two fields share a name. -/
def namesNodup (fs : Fields) : Prop := fs.names.Nodup

instance (fs : Fields) : Decidable fs.namesNodup := by
  unfold namesNodup; infer_instance

end Fields

/-- Modelled from the spec: `create_base_model` (the Dynamic Type Factory of
§4.1, defined in `nomos/utils/utils.py`, which is not part of the provided
sources).  Per the spec it assembles a record type from the ordered field
specifications, preserving field order, and "duplicate field names within one
call are rejected (fails with a `DuplicateFieldError`)". -/
def create_base_model (name : String) (fields : Fields) : Except SchemaError PyType :=
  if fields.namesNodup then .ok (.model name fields) else .error .duplicateFieldError

/-- `schema.get("required", [])` followed by the element-membership uses:
the declared required list of an object schema.  A non-sequence `required`
value is outside the schema-document vocabulary (spec §6). -/
def requiredList (s : JsonObj) : JsonList :=
  match s.find "required" with
  | some (.jarr xs) => xs
  | _ => .nil

/-- `prop_schema.get("description", "")`: the declared description string, or
`""` when absent.  A non-string description is outside the vocabulary. -/
def getDescription (s : JsonObj) : String :=
  match s.find "description" with
  | some (.jstr d) => d
  | _ => ""

theorem JsonObj.find_asObj_size {s : JsonObj} {k : String} {v : Json}
    (h : s.find k = some v) : v.asObj.size < s.size :=
  Nat.lt_trans (Json.asObj_size _) (JsonObj.find_size h)

theorem JsonObj.head_asObj_size (k : String) (v : Json) (rest : JsonObj) :
    v.asObj.size < (JsonObj.cons k v rest).size := by
  have := Json.asObj_size v
  simp only [JsonObj.size]; omega

theorem JsonObj.tail_size (k : String) (v : Json) (rest : JsonObj) :
    rest.size < (JsonObj.cons k v rest).size := by
  have := Json.size_pos v
  simp only [JsonObj.size]; omega

mutual

/-- `SchemaRegistry._json_schema_to_pydantic`: build the ordered field
dictionary from the schema's `properties` (with the required/default policy
and description propagation) and hand it to `create_base_model` under the
fixed type name `"DynamicModel"`. -/
def jsonSchemaToPydantic (s : JsonObj) : Except SchemaError PyType :=
  match h : s.find "properties" with
  | some props => do
      let fields ← fieldsFromProps (requiredList s) props.asObj .nil
      create_base_model "DynamicModel" fields
  | none => create_base_model "DynamicModel" .nil
termination_by (s.size, 0)
decreasing_by
  exact Prod.Lex.left _ _ (JsonObj.find_asObj_size h)

/-- The `for prop_name, prop_schema in schema["properties"].items()` loop of
`_json_schema_to_pydantic`, accumulating `fields[prop_name] = field_info`. -/
def fieldsFromProps (required : JsonList) (props : JsonObj) (acc : Fields) :
    Except SchemaError Fields :=
  match props with
  | .nil => pure acc
  | .cons propName propSchema rest => do
      let fieldType ← jsonTypeToPython propSchema.asObj
      let defaultVal := if required.containsStr propName then DefaultVal.ellipsis
                        else DefaultVal.pyNone
      let description := getDescription propSchema.asObj
      let descr := if description == "" then none else some description
      fieldsFromProps required rest (acc.assign propName fieldType defaultVal descr)
termination_by (props.size, 0)
decreasing_by
  · exact Prod.Lex.left _ _ (JsonObj.head_asObj_size _ _ _)
  · exact Prod.Lex.left _ _ (JsonObj.tail_size _ _ _)

/-- `SchemaRegistry._json_type_to_python`: the fixed mapping from a schema's
`type` tag to a Python type. -/
def jsonTypeToPython (s : JsonObj) : Except SchemaError PyType :=
  match s.find "type" with
  | some (.jstr "string") => .ok .pyStr
  | some (.jstr "number") => .ok .pyFloat
  | some (.jstr "integer") => .ok .pyInt
  | some (.jstr "boolean") => .ok .pyBool
  | some (.jstr "object") =>
      match s.find "properties" with
      | some _ => jsonSchemaToPydantic s
      | none => .ok .dictStrAny
  | some (.jstr "array") =>
      match h : s.find "items" with
      | some items => do
          let itemType ← jsonTypeToPython items.asObj
          .ok (.pyList itemType)
      | none => .ok (.pyList .pyAny)
  | _ => .ok .pyAny
termination_by (s.size, 1)
decreasing_by
  · exact Prod.Lex.right _ Nat.zero_lt_one
  · exact Prod.Lex.left _ _ (JsonObj.find_asObj_size h)

end

/-! ### Python dictionaries as association lists

`Dict[str, T]` values of the source (`models`, `self._schemas`, module
namespaces) are embedded as insertion-ordered association lists with the
`dict` update rule: assignment replaces an existing binding in place and
appends a fresh one. -/

/-- `d.get(k)` / `d[k]` / `k in d`. -/
def assocFind {α : Type} : List (String × α) → String → Option α
  | [], _ => none
  | (k, v) :: rest, key => if k == key then some v else assocFind rest key

/-- `d[k] = v`. -/
def assocAssign {α : Type} : List (String × α) → String → α → List (String × α)
  | [], key, v => [(key, v)]
  | (k, w) :: rest, key, v =>
      if k == key then (k, v) :: rest else (k, w) :: assocAssign rest key v

/-- One schema namespace: `models`, mapping a model name to the
`BaseModel` class stored for it. -/
abbrev Models : Type := List (String × PyType)

/-- The registry state `self._schemas`. -/
abbrev RegistryState : Type := List (String × Models)

/-! ### The JSON loading path (`_load_json_schema`) -/

/-- The per-property loop of `_load_json_schema`: for every root property
whose schema satisfies `prop_schema.get("type") == "object" and "properties"
in prop_schema`, compile it and store it under the property's name. -/
def addPropModels (models : Models) (props : JsonObj) : Except SchemaError Models :=
  match props with
  | .nil => pure models
  | .cons propName propSchema rest => do
      let models' ←
        if propSchema.asObj.find "type" == some (.jstr "object")
            && (propSchema.asObj.find "properties").isSome then do
          let propModel ← jsonSchemaToPydantic propSchema.asObj
          pure (assocAssign models propName propModel)
        else pure models
      addPropModels models' rest

/-- The definitions loop of `_load_json_schema`: compile each definition
independently and store it under its key. -/
def addDefModels (models : Models) (defs : JsonObj) : Except SchemaError Models :=
  match defs with
  | .nil => pure models
  | .cons defName defSchema rest => do
      let defModel ← jsonSchemaToPydantic defSchema.asObj
      addDefModels (assocAssign models defName defModel) rest

/-- The model-building part of `SchemaRegistry._load_json_schema` on an
already parsed document: root model (when `properties` is present), the
qualifying root properties, then the definitions. -/
def loadJsonModels (name : String) (doc : Json) : Except SchemaError Models := do
  let models : Models := []
  let models ←
    match doc.getKey "properties" with
    | some props => do
        let rootModel ← jsonSchemaToPydantic doc.asObj
        addPropModels (assocAssign models name rootModel) props.asObj
    | none => pure models
  match doc.getKey "definitions" with
  | some defs => addDefModels models defs.asObj
  | none => pure models

/-! ### The Python loading path (`_load_python_schema`) -/

/-- What a top-level attribute of an executed module can be, as far as the
harvesting filter `isinstance(attr, type) and issubclass(attr, BaseModel) and
attr != BaseModel` can observe. -/
inductive PyAttr where
  /-- a class that is a proper subclass of `pydantic.BaseModel`; carries the
  model it denotes. -/
  | baseModelSub : PyType → PyAttr
  /-- the `pydantic.BaseModel` class itself (e.g. imported into the module). -/
  | baseModelItself : PyAttr
  /-- anything else: a non-`BaseModel` class or a non-class attribute. -/
  | other : PyAttr
deriving DecidableEq, Repr

/-- A module's namespace after execution: attribute name to attribute. -/
abbrev ModuleNS : Type := List (String × PyAttr)

/-- Insert an attribute entry into a name-sorted list (`dir` sorts names). -/
def insertByName (x : String × PyAttr) : ModuleNS → ModuleNS
  | [] => [x]
  | y :: ys => if x.1 < y.1 then x :: y :: ys else y :: insertByName x ys

/-- `dir(module)`: the attribute names in sorted order (paired here with the
values `getattr` returns for them). -/
def dirSorted (ns : ModuleNS) : ModuleNS :=
  ns.foldr insertByName []

/-- One iteration of the harvesting loop of `_load_python_schema`: keep the
attribute when `isinstance(attr, type) and issubclass(attr, BaseModel) and
attr != BaseModel`, indexed by its name (`models[attr_name] = attr`). -/
def harvestStep (models : Models) (entry : String × PyAttr) : Models :=
  match entry.2 with
  | .baseModelSub t => assocAssign models entry.1 t
  | _ => models

/-- The harvesting loop of `_load_python_schema`: walk `dir(module)` and keep
every attribute that is a proper `BaseModel` subclass, indexed by its name. -/
def harvestModels (ns : ModuleNS) : Models :=
  (dirSorted ns).foldl harvestStep []

/-! ### Paths and the file system boundary -/

/-- `os.path.join(base, p)` (POSIX, two arguments): an absolute second path
wins; otherwise the parts are joined with a single separator. -/
def osPathJoin (base p : String) : String :=
  if p.toList.head? == some '/' then p
  else if base == "" || base.toList.getLast? == some '/' then base ++ p
  else base ++ "/" ++ p

/-- The final path component: the characters after the last `/`
(`acc` holds the current component, reversed). -/
def lastComponent : List Char → List Char → List Char
  | acc, [] => acc.reverse
  | _, '/' :: rest => lastComponent [] rest
  | acc, c :: rest => lastComponent (c :: acc) rest

/-- The extension part of `os.path.splitext` restricted to one basename:
everything from the last dot on, provided some character strictly before that
dot is not a dot (leading dots never start an extension).  `seenNonDot`
records whether a non-dot character has occurred so far. -/
def extOfBasename (seenNonDot : Bool) (cs : List Char) : List Char :=
  match cs with
  | [] => []
  | c :: rest =>
      if c == '.' then
        let laterExt := extOfBasename seenNonDot rest
        if laterExt.isEmpty then
          if seenNonDot then c :: rest else []
        else laterExt
      else extOfBasename true rest

/-- `os.path.splitext(path)[1]`: the extension of the final path component. -/
def splitextExt (path : String) : String :=
  String.mk (extOfBasename false (lastComponent [] path.toList))

/-- `str.lower` on the ASCII range (extensions in scope are ASCII). -/
def asciiLower (s : String) : String :=
  String.mk (s.toList.map fun c =>
    if 'A' ≤ c && c ≤ 'Z' then Char.ofNat (c.toNat + 32) else c)

/-- `os.path.splitext(file_path)[1].lower()`. -/
def fileExtLower (path : String) : String :=
  asciiLower (splitextExt path)

/-- What a file on disk holds, as far as the two loaders can observe:
text that `json.load` parses to a document, a module whose execution yields a
namespace, or anything else. -/
inductive FileContent where
  /-- a file whose contents are valid JSON, parsing to the given document. -/
  | jsonDoc : Json → FileContent
  /-- a file that executes as a Python module, yielding the given namespace
  (execution failure is a separate constructor since it raises). -/
  | pyModule : ModuleNS → FileContent
  /-- contents that `json.load` rejects and that fail to execute as Python. -/
  | otherText : FileContent

/-- The file system visible to `load_schema`: path to contents. -/
abbrev FileSystem : Type := List (String × FileContent)

/-! ### The registry API (`load_schema`, `get_model`) -/

/-- `if base_path: file_path = os.path.join(base_path, file_path)`. -/
def resolvePath (filePath : String) (basePath : Option String) : String :=
  match basePath with
  | some bp => osPathJoin bp filePath
  | none => filePath

/-- `SchemaRegistry.load_schema`: resolve the path against `base_path`, check
existence, dispatch on the lowercased extension, store the produced mapping
under `name`, and return it.  The state component of the result is
`self._schemas` after the call; every raising path leaves it untouched. -/
def load_schema (fs : FileSystem) (st : RegistryState) (name : String)
    (filePath : String) (basePath : Option String) :
    RegistryState × Except SchemaError Models :=
  let path := resolvePath filePath basePath
  match assocFind fs path with
  | none => (st, .error (.fileNotFound path))
  | some content =>
    let fileExt := fileExtLower path
    if fileExt == ".json" then
      match content with
      | .jsonDoc doc =>
          match loadJsonModels name doc with
          | .ok models => (assocAssign st name models, .ok models)
          | .error e => (st, .error e)
      | _ => (st, .error .documentError)
    else if fileExt == ".py" then
      match content with
      | .pyModule ns =>
          let models := harvestModels ns
          (assocAssign st name models, .ok models)
      | _ => (st, .error .moduleLoadError)
    else (st, .error (.unsupportedFileType fileExt))

/-- `SchemaRegistry.get_model`: two-level lookup with the two `ValueError`
raises of the source.  The method only reads `self._schemas`; the returned
state is the input state. -/
def get_model (st : RegistryState) (schemaName modelName : String) :
    RegistryState × Except SchemaError PyType :=
  match assocFind st schemaName with
  | none => (st, .error (.schemaNameNotFound schemaName))
  | some models =>
      match assocFind models modelName with
      | none => (st, .error (.modelNotFound schemaName modelName))
      | some m => (st, .ok m)

/-! ### Supporting lemmas -/

theorem assocFind_assign_self {α : Type} (l : List (String × α)) (k : String) (v : α) :
    assocFind (assocAssign l k v) k = some v := by
  induction l with
  | nil => simp [assocAssign, assocFind]
  | cons hd tl ih =>
    obtain ⟨k2, v2⟩ := hd
    by_cases hk : k2 = k
    · subst hk; simp [assocAssign, assocFind]
    · simp [assocAssign, assocFind, hk, ih]

theorem assocFind_assign_ne {α : Type} (l : List (String × α)) (k k' : String) (v : α)
    (h : k ≠ k') : assocFind (assocAssign l k v) k' = assocFind l k' := by
  induction l with
  | nil => simp [assocAssign, assocFind, h]
  | cons hd tl ih =>
    obtain ⟨k2, v2⟩ := hd
    by_cases hk : k2 = k
    · subst hk; simp [assocAssign, assocFind, h]
    · by_cases hk' : k2 = k'
      · subst hk'; simp [assocAssign, assocFind, hk]
      · simp [assocAssign, assocFind, hk, hk', ih]

theorem Fields.find_assign : ∀ (fs : Fields) (n m : String) (ty : PyType)
    (d : DefaultVal) (ds : Option String),
    (fs.assign n ty d ds).find m = if n = m then some (ty, d, ds) else fs.find m
  | .nil, n, m, ty, d, ds => by
    by_cases h : n = m <;> simp [Fields.assign, Fields.find, h]
  | .cons k t dd dds rest, n, m, ty, d, ds => by
    by_cases hk : k = n
    · subst hk
      by_cases h : k = m <;> simp [Fields.assign, Fields.find, h]
    · by_cases h : k = m
      · subst h
        have hnk : n ≠ k := fun hh => hk hh.symm
        simp [Fields.assign, Fields.find, hk, hnk]
      · simp [Fields.assign, Fields.find, hk, h,
          Fields.find_assign rest n m ty d ds]

theorem Fields.names_assign : ∀ (fs : Fields) (n : String) (ty : PyType)
    (d : DefaultVal) (ds : Option String),
    (fs.assign n ty d ds).names =
      if n ∈ fs.names then fs.names else fs.names ++ [n]
  | .nil, n, ty, d, ds => by simp [Fields.assign, Fields.names]
  | .cons k t dd dds rest, n, ty, d, ds => by
    by_cases hk : k = n
    · subst hk; simp [Fields.assign, Fields.names]
    · have hnk : n ≠ k := fun hh => hk hh.symm
      by_cases hmem : n ∈ rest.names <;>
        simp [Fields.assign, Fields.names, hk, hmem, hnk,
          Fields.names_assign rest n ty d ds]

theorem Fields.namesNodup_assign {fs : Fields} (h : fs.namesNodup)
    (n : String) (ty : PyType) (d : DefaultVal) (ds : Option String) :
    (fs.assign n ty d ds).namesNodup := by
  unfold Fields.namesNodup at *
  rw [Fields.names_assign]
  by_cases hmem : n ∈ fs.names
  · simpa [hmem]
  · rw [if_neg hmem]
    exact List.Nodup.append h (List.nodup_singleton n)
      (List.disjoint_singleton.mpr hmem)

/-- The keys of a JSON object, in order. -/
def JsonObj.keys : JsonObj → List String
  | .nil => []
  | .cons k _ rest => k :: keys rest

/-- The entries of a JSON object as a list of pairs. -/
def JsonObj.entriesList : JsonObj → List (String × Json)
  | .nil => []
  | .cons k v rest => (k, v) :: entriesList rest

theorem JsonObj.find_eq_none_of_not_mem_keys : ∀ {fs : JsonObj} {k : String},
    k ∉ fs.keys → fs.find k = none
  | .nil, _, _ => rfl
  | .cons k2 v rest, k, h => by
    simp only [JsonObj.keys, List.mem_cons, not_or] at h
    have hne : k2 ≠ k := fun hh => h.1 hh.symm
    simp [JsonObj.find, hne, JsonObj.find_eq_none_of_not_mem_keys h.2]

theorem Fields.namesNodup_nil : Fields.namesNodup .nil := by
  simp [Fields.namesNodup, Fields.names]

/-- The compiler pipeline feeds `create_base_model` a genuine `dict`, whose
keys cannot repeat, so no call of the pipeline ever trips the duplicate-field
rejection: every compile returns a model.  Proved by strong induction on the
schema size, mutually for the three recursive functions. -/
theorem compile_total : ∀ n : Nat,
    (∀ s : JsonObj, s.size ≤ n →
      ∃ fs, jsonSchemaToPydantic s = .ok (.model "DynamicModel" fs) ∧ fs.namesNodup) ∧
    (∀ (req : JsonList) (props : JsonObj) (acc : Fields),
      props.size ≤ n → acc.namesNodup →
      ∃ out, fieldsFromProps req props acc = .ok out ∧ out.namesNodup) ∧
    (∀ s : JsonObj, s.size ≤ n → ∃ t, jsonTypeToPython s = .ok t) := by
  intro n
  induction n using Nat.strong_induction_on with
  | _ n ih =>
    have h1 : ∀ s : JsonObj, s.size ≤ n →
        ∃ fs, jsonSchemaToPydantic s = .ok (.model "DynamicModel" fs) ∧ fs.namesNodup := by
      intro s hs
      rw [jsonSchemaToPydantic]
      split
      · next props hfind =>
        have hsz : props.asObj.size < n :=
          Nat.lt_of_lt_of_le (JsonObj.find_asObj_size hfind) hs
        obtain ⟨out, hout, hnodup⟩ :=
          (ih props.asObj.size hsz).2.1 (requiredList s) props.asObj .nil
            (Nat.le_refl _) Fields.namesNodup_nil
        refine ⟨out, ?_, hnodup⟩
        simp [hout, create_base_model, hnodup, Bind.bind, Except.bind]
      · exact ⟨.nil, by simp [create_base_model, Fields.namesNodup_nil], Fields.namesNodup_nil⟩
    have h2 : ∀ (req : JsonList) (props : JsonObj) (acc : Fields),
        props.size ≤ n → acc.namesNodup →
        ∃ out, fieldsFromProps req props acc = .ok out ∧ out.namesNodup := by
      intro req props acc hsize hacc
      match props with
      | .nil => exact ⟨acc, by rw [fieldsFromProps]; rfl, hacc⟩
      | .cons k v rest =>
        have hvn : v.asObj.size < n :=
          Nat.lt_of_lt_of_le (JsonObj.head_asObj_size k v rest) hsize
        obtain ⟨t, ht⟩ := (ih v.asObj.size hvn).2.2 v.asObj (Nat.le_refl _)
        have hrn : rest.size < n :=
          Nat.lt_of_lt_of_le (JsonObj.tail_size k v rest) hsize
        obtain ⟨out, hout, hnodup⟩ :=
          (ih rest.size hrn).2.1 req rest
            (acc.assign k t
              (if req.containsStr k then DefaultVal.ellipsis else DefaultVal.pyNone)
              (if getDescription v.asObj == "" then none else some (getDescription v.asObj)))
            (Nat.le_refl _) (Fields.namesNodup_assign hacc _ _ _ _)
        refine ⟨out, ?_, hnodup⟩
        rw [fieldsFromProps]
        simpa [ht, Bind.bind, Except.bind] using hout
    have h3 : ∀ s : JsonObj, s.size ≤ n → ∃ t, jsonTypeToPython s = .ok t := by
      intro s hs
      rw [jsonTypeToPython]
      split
      · exact ⟨_, rfl⟩
      · exact ⟨_, rfl⟩
      · exact ⟨_, rfl⟩
      · exact ⟨_, rfl⟩
      · split
        · obtain ⟨fs, hfs, _⟩ := h1 s hs
          exact ⟨_, hfs⟩
        · exact ⟨_, rfl⟩
      · split
        · next items hfind =>
          have hlt : items.asObj.size < n :=
            Nat.lt_of_lt_of_le (JsonObj.find_asObj_size hfind) hs
          obtain ⟨t, ht⟩ := (ih items.asObj.size hlt).2.2 items.asObj (Nat.le_refl _)
          refine ⟨t.pyList, ?_⟩
          simp [ht, Bind.bind, Except.bind]
        · exact ⟨_, rfl⟩
      · exact ⟨_, rfl⟩
    exact ⟨h1, h2, h3⟩

theorem jsonSchemaToPydantic_total (s : JsonObj) :
    ∃ fs, jsonSchemaToPydantic s = .ok (.model "DynamicModel" fs) ∧ fs.namesNodup :=
  (compile_total s.size).1 s (Nat.le_refl _)

theorem jsonTypeToPython_total (s : JsonObj) : ∃ t, jsonTypeToPython s = .ok t :=
  (compile_total s.size).2.2 s (Nat.le_refl _)

/-- Keys the loop never touches keep their binding from the accumulator. -/
theorem fieldsFromProps_find_of_not_mem : ∀ {props : JsonObj} {req : JsonList}
    {acc out : Fields} {m : String},
    fieldsFromProps req props acc = .ok out → m ∉ props.keys →
    out.find m = acc.find m
  | .nil, req, acc, out, m, h, _ => by
    rw [fieldsFromProps] at h
    cases h; rfl
  | .cons k v rest, req, acc, out, m, h, hmem => by
    simp only [JsonObj.keys, List.mem_cons, not_or] at hmem
    rw [fieldsFromProps] at h
    cases hjt : jsonTypeToPython v.asObj with
    | error e => simp [hjt, Bind.bind, Except.bind] at h
    | ok t =>
      simp only [hjt, Bind.bind, Except.bind] at h
      have hpres := fieldsFromProps_find_of_not_mem h hmem.2
      have hkm : k ≠ m := fun hh => hmem.1 hh.symm
      rw [hpres, Fields.find_assign, if_neg hkm]

/-- Every property the loop does touch ends with exactly the field
specification the source computes for it: the recursively resolved type, the
`...`/`None` default decided by the `required` list, and the description. -/
theorem fieldsFromProps_find_mem : ∀ {props : JsonObj} {req : JsonList}
    {acc out : Fields} {n : String} {sch : Json},
    fieldsFromProps req props acc = .ok out →
    props.keys.Nodup →
    props.find n = some sch →
    ∃ ty, jsonTypeToPython sch.asObj = .ok ty ∧
      out.find n = some (ty,
        (if req.containsStr n then DefaultVal.ellipsis else DefaultVal.pyNone),
        (if getDescription sch.asObj == "" then none
         else some (getDescription sch.asObj)))
  | .nil, req, acc, out, n, sch, _, _, hfind => by
    simp [JsonObj.find] at hfind
  | .cons k v rest, req, acc, out, n, sch, h, hnd, hfind => by
    simp only [JsonObj.keys, List.nodup_cons] at hnd
    rw [fieldsFromProps] at h
    cases hjt : jsonTypeToPython v.asObj with
    | error e => simp [hjt, Bind.bind, Except.bind] at h
    | ok t =>
      simp only [hjt, Bind.bind, Except.bind] at h
      simp only [JsonObj.find] at hfind
      by_cases hk : k = n
      · subst hk
        simp only [if_pos (beq_self_eq_true k)] at hfind
        cases hfind
        refine ⟨t, hjt, ?_⟩
        rw [fieldsFromProps_find_of_not_mem h hnd.1, Fields.find_assign]
        simp
      · rw [if_neg (by simpa using hk)] at hfind
        exact fieldsFromProps_find_mem h hnd.2 hfind

theorem JsonObj.find_mem_entriesList : ∀ {fs : JsonObj} {k : String} {v : Json},
    fs.find k = some v → (k, v) ∈ fs.entriesList
  | .nil, _, _, h => by simp [JsonObj.find] at h
  | .cons k2 v2 rest, k, v, h => by
    simp only [JsonObj.find] at h
    by_cases hk : k2 = k
    · subst hk
      simp only [if_pos (beq_self_eq_true k2)] at h
      cases h
      exact List.mem_cons_self _ _
    · rw [if_neg (by simpa using hk)] at h
      exact List.mem_cons_of_mem _ (JsonObj.find_mem_entriesList h)

theorem JsonObj.not_mem_keys_of_find_eq_none : ∀ {fs : JsonObj} {k : String},
    fs.find k = none → k ∉ fs.keys
  | .nil, k, _ => by simp [JsonObj.keys]
  | .cons k2 v rest, k, h => by
    simp only [JsonObj.find] at h
    by_cases hk : k2 = k
    · rw [if_pos (by simpa using hk)] at h; cases h
    · rw [if_neg (by simpa using hk)] at h
      have := JsonObj.not_mem_keys_of_find_eq_none h
      simp only [JsonObj.keys, List.mem_cons, not_or]
      exact ⟨fun hh => hk hh.symm, this⟩

theorem JsonObj.mem_keys_of_mem_entriesList : ∀ {fs : JsonObj} {k : String}
    {v : Json}, (k, v) ∈ fs.entriesList → k ∈ fs.keys
  | .nil, _, _, h => by simp [JsonObj.entriesList] at h
  | .cons k2 v2 rest, k, v, h => by
    simp only [JsonObj.entriesList, List.mem_cons] at h
    simp only [JsonObj.keys, List.mem_cons]
    rcases h with heq | hmem
    · exact Or.inl (congrArg Prod.fst heq)
    · exact Or.inr (JsonObj.mem_keys_of_mem_entriesList hmem)

/-- `prop_schema.get("type") == "object" and "properties" in prop_schema`:
the condition under which `_load_json_schema` also compiles a root property
as a named sibling model. -/
def qualifiesProp (v : Json) : Prop :=
  v.asObj.find "type" = some (.jstr "object") ∧ (v.asObj.find "properties").isSome

instance (v : Json) : Decidable (qualifiesProp v) := by
  unfold qualifiesProp; infer_instance

theorem qualifiesProp_iff (v : Json) :
    (v.asObj.find "type" == some (.jstr "object")
      && (v.asObj.find "properties").isSome) = true ↔ qualifiesProp v := by
  simp [qualifiesProp, Bool.and_eq_true, beq_iff_eq]

/-- On an object-tagged schema that declares `properties`,
`_json_type_to_python` defers to `_json_schema_to_pydantic`. -/
theorem jsonTypeToPython_object_props {s : JsonObj}
    (ht : s.find "type" = some (.jstr "object"))
    (hp : (s.find "properties").isSome) :
    jsonTypeToPython s = jsonSchemaToPydantic s := by
  obtain ⟨pv, hpv⟩ := Option.isSome_iff_exists.mp hp
  rw [jsonTypeToPython.eq_def, ht]
  simp only [hpv]

/-- The per-property loop always succeeds (each nested compile succeeds). -/
theorem addPropModels_total : ∀ (props : JsonObj) (acc : Models),
    ∃ out, addPropModels acc props = .ok out
  | .nil, acc => ⟨acc, by rw [addPropModels]; rfl⟩
  | .cons k v rest, acc => by
    rw [addPropModels]
    by_cases hq : (v.asObj.find "type" == some (.jstr "object")
        && (v.asObj.find "properties").isSome) = true
    · obtain ⟨fsp, hjs, _⟩ := jsonSchemaToPydantic_total v.asObj
      obtain ⟨out, hout⟩ :=
        addPropModels_total rest (assocAssign acc k (.model "DynamicModel" fsp))
      exact ⟨out, by simp [hq, hjs, hout, Bind.bind, Except.bind, pure, Except.pure]⟩
    · obtain ⟨out, hout⟩ := addPropModels_total rest acc
      exact ⟨out, by simp [hq, hout, Bind.bind, Except.bind, pure, Except.pure]⟩

/-- Keys for which no binding of `props` qualifies keep their binding from the
accumulator through the per-property loop. -/
theorem addPropModels_preserve : ∀ {props : JsonObj} {acc out : Models}
    {m : String}, addPropModels acc props = .ok out →
    (∀ v, (m, v) ∈ props.entriesList → ¬ qualifiesProp v) →
    assocFind out m = assocFind acc m
  | .nil, acc, out, m, h, _ => by
    rw [addPropModels] at h; cases h; rfl
  | .cons k v rest, acc, out, m, h, hnq => by
    rw [addPropModels] at h
    simp only [Bind.bind] at h
    have hnqr : ∀ v2, (m, v2) ∈ rest.entriesList → ¬ qualifiesProp v2 :=
      fun v2 hmem => hnq v2 (List.mem_cons_of_mem _ hmem)
    by_cases hq : (v.asObj.find "type" == some (.jstr "object")
        && (v.asObj.find "properties").isSome) = true
    · rw [if_pos hq] at h
      cases hjs : jsonSchemaToPydantic v.asObj with
      | error e => simp [hjs, Except.bind] at h
      | ok pm =>
        simp only [hjs, Except.bind, pure, Except.pure] at h
        have hk : k ≠ m := by
          intro hkm
          exact hnq v (by rw [hkm] at *; exact List.mem_cons_self _ _)
            ((qualifiesProp_iff v).mp hq)
        rw [addPropModels_preserve h hnqr, assocFind_assign_ne _ _ _ _ hk]
    · rw [if_neg hq] at h
      simp only [Except.bind, pure, Except.pure] at h
      exact addPropModels_preserve h hnqr

/-- A qualifying binding of `props` ends up, after the loop, mapped to its
independently compiled model. -/
theorem addPropModels_find_mem : ∀ {props : JsonObj} {acc out : Models}
    {n : String} {sch : Json},
    addPropModels acc props = .ok out → props.keys.Nodup →
    props.find n = some sch → qualifiesProp sch →
    ∃ pm, jsonSchemaToPydantic sch.asObj = .ok pm ∧ assocFind out n = some pm
  | .nil, _, _, _, _, _, _, hfind, _ => by simp [JsonObj.find] at hfind
  | .cons k v rest, acc, out, n, sch, h, hnd, hfind, hqual => by
    simp only [JsonObj.keys, List.nodup_cons] at hnd
    rw [addPropModels] at h
    simp only [Bind.bind] at h
    simp only [JsonObj.find] at hfind
    by_cases hk : k = n
    · subst hk
      simp only [if_pos (beq_self_eq_true k)] at hfind
      cases hfind
      have hq : (v.asObj.find "type" == some (.jstr "object")
          && (v.asObj.find "properties").isSome) = true :=
        (qualifiesProp_iff v).mpr hqual
      rw [if_pos hq] at h
      cases hjs : jsonSchemaToPydantic v.asObj with
      | error e => simp [hjs, Except.bind] at h
      | ok pm =>
        simp only [hjs, Except.bind, pure, Except.pure] at h
        refine ⟨pm, rfl, ?_⟩
        have hnot : ∀ v2, (k, v2) ∈ rest.entriesList → ¬ qualifiesProp v2 :=
          fun v2 hmem _ => hnd.1 (JsonObj.mem_keys_of_mem_entriesList hmem)
        rw [addPropModels_preserve h hnot, assocFind_assign_self]
    · rw [if_neg (by simpa using hk)] at hfind
      by_cases hq : (v.asObj.find "type" == some (.jstr "object")
          && (v.asObj.find "properties").isSome) = true
      · rw [if_pos hq] at h
        cases hjs : jsonSchemaToPydantic v.asObj with
        | error e => simp [hjs, Except.bind] at h
        | ok pm =>
          simp only [hjs, Except.bind, pure, Except.pure] at h
          exact addPropModels_find_mem h hnd.2 hfind hqual
      · rw [if_neg hq] at h
        simp only [Except.bind, pure, Except.pure] at h
        exact addPropModels_find_mem h hnd.2 hfind hqual

/-- The definitions loop always succeeds. -/
theorem addDefModels_total : ∀ (defs : JsonObj) (acc : Models),
    ∃ out, addDefModels acc defs = .ok out
  | .nil, acc => ⟨acc, by rw [addDefModels]; rfl⟩
  | .cons k v rest, acc => by
    rw [addDefModels]
    obtain ⟨fsp, hjs, _⟩ := jsonSchemaToPydantic_total v.asObj
    obtain ⟨out, hout⟩ :=
      addDefModels_total rest (assocAssign acc k (.model "DynamicModel" fsp))
    exact ⟨out, by simp [hjs, hout, Bind.bind, Except.bind]⟩

/-- Keys not bound in `definitions` keep their binding from the accumulator
through the definitions loop. -/
theorem addDefModels_preserve : ∀ {defs : JsonObj} {acc out : Models}
    {m : String}, addDefModels acc defs = .ok out → m ∉ defs.keys →
    assocFind out m = assocFind acc m
  | .nil, acc, out, m, h, _ => by
    rw [addDefModels] at h; cases h; rfl
  | .cons k v rest, acc, out, m, h, hmem => by
    simp only [JsonObj.keys, List.mem_cons, not_or] at hmem
    rw [addDefModels] at h
    cases hjs : jsonSchemaToPydantic v.asObj with
    | error e => simp [hjs, Bind.bind, Except.bind] at h
    | ok pm =>
      simp only [hjs, Bind.bind, Except.bind] at h
      have hk : k ≠ m := fun hh => hmem.1 hh.symm
      rw [addDefModels_preserve h hmem.2, assocFind_assign_ne _ _ _ _ hk]

/-- Decomposition of `_load_json_schema`'s model building when the document
declares `properties`: the root model is compiled and stored under `name`,
the per-property loop runs on the `properties` value, and the definitions
loop (if any) only touches keys bound in `definitions`. -/
theorem loadJsonModels_decompose {name : String} {doc : Json} {pv : Json}
    (hprops : doc.getKey "properties" = some pv) :
    ∃ rootFs ms out,
      jsonSchemaToPydantic doc.asObj = .ok (.model "DynamicModel" rootFs) ∧
      addPropModels (assocAssign [] name (.model "DynamicModel" rootFs)) pv.asObj =
        .ok ms ∧
      loadJsonModels name doc = .ok out ∧
      (doc.getKey "definitions" = none → out = ms) ∧
      (∀ m defs, doc.getKey "definitions" = some defs →
        defs.asObj.find m = none → assocFind out m = assocFind ms m) := by
  obtain ⟨rootFs, hroot, _⟩ := jsonSchemaToPydantic_total doc.asObj
  obtain ⟨ms, hms⟩ :=
    addPropModels_total pv.asObj (assocAssign [] name (.model "DynamicModel" rootFs))
  have hstep : loadJsonModels name doc =
      (match doc.getKey "definitions" with
       | some defs => addDefModels ms defs.asObj
       | none => pure ms) := by
    unfold loadJsonModels
    rw [hprops]
    simp [hroot, hms, Bind.bind, Except.bind]
  cases hdefs : doc.getKey "definitions" with
  | none =>
    refine ⟨rootFs, ms, ms, hroot, hms, ?_, fun _ => rfl, ?_⟩
    · rw [hstep, hdefs]; rfl
    · intro m defs hd; cases hd
  | some defs =>
    obtain ⟨out, hout⟩ := addDefModels_total defs.asObj ms
    refine ⟨rootFs, ms, out, hroot, hms, ?_, ?_, ?_⟩
    · rw [hstep, hdefs]; exact hout
    · intro hd; cases hd
    · intro m defs2 hd hfind
      cases hd
      exact addDefModels_preserve hout (JsonObj.not_mem_keys_of_find_eq_none hfind)

/-! ### Claim theorems -/

/-- C1: for every field schema passed through `_json_type_to_python`, the
resolved field type follows the fixed mapping: `"string"` → `str`, `"number"`
→ `float`, `"integer"` → `int`, `"boolean"` → `bool`, `"object"` with a
`properties` entry → the recursively compiled nested model, `"object"`
without `properties` → `Dict[str, Any]`, `"array"` with an `items` schema →
`List` of the recursively resolved item type, `"array"` without `items` →
`List[Any]`, and any other or missing `type` tag → `Any`. -/
theorem C1_type_mapping (s : JsonObj) :
    (s.find "type" = some (.jstr "string") → jsonTypeToPython s = .ok .pyStr) ∧
    (s.find "type" = some (.jstr "number") → jsonTypeToPython s = .ok .pyFloat) ∧
    (s.find "type" = some (.jstr "integer") → jsonTypeToPython s = .ok .pyInt) ∧
    (s.find "type" = some (.jstr "boolean") → jsonTypeToPython s = .ok .pyBool) ∧
    (∀ p, s.find "type" = some (.jstr "object") → s.find "properties" = some p →
      jsonTypeToPython s = jsonSchemaToPydantic s) ∧
    (s.find "type" = some (.jstr "object") → s.find "properties" = none →
      jsonTypeToPython s = .ok .dictStrAny) ∧
    (∀ items ty, s.find "type" = some (.jstr "array") → s.find "items" = some items →
      jsonTypeToPython items.asObj = .ok ty →
      jsonTypeToPython s = .ok (.pyList ty)) ∧
    (s.find "type" = some (.jstr "array") → s.find "items" = none →
      jsonTypeToPython s = .ok (.pyList .pyAny)) ∧
    (∀ t, s.find "type" = some t →
      t ≠ .jstr "string" → t ≠ .jstr "number" → t ≠ .jstr "integer" →
      t ≠ .jstr "boolean" → t ≠ .jstr "object" → t ≠ .jstr "array" →
      jsonTypeToPython s = .ok .pyAny) ∧
    (s.find "type" = none → jsonTypeToPython s = .ok .pyAny) := by
  refine ⟨?_, ?_, ?_, ?_, ?_, ?_, ?_, ?_, ?_, ?_⟩
  · intro h; rw [jsonTypeToPython.eq_def, h]; simp
  · intro h; rw [jsonTypeToPython.eq_def, h]; simp
  · intro h; rw [jsonTypeToPython.eq_def, h]; simp
  · intro h; rw [jsonTypeToPython.eq_def, h]; simp
  · intro p h hp; rw [jsonTypeToPython.eq_def, h]
    simp only [hp]
  · intro h hp; rw [jsonTypeToPython.eq_def, h]
    simp only [hp]
  · intro items ty h hi hty
    rw [jsonTypeToPython.eq_def, h]
    simp only [Bind.bind, Except.bind]
    split
    · next items2 hfind2 =>
      rw [hi] at hfind2
      cases hfind2
      simp [hty]
    · next hfind2 => rw [hi] at hfind2; cases hfind2
  · intro h hi
    rw [jsonTypeToPython.eq_def, h]
    simp only [Bind.bind, Except.bind]
    split
    · next items2 hfind2 => rw [hi] at hfind2; cases hfind2
    · rfl
  · intro t h h1 h2 h3 h4 h5 h6
    rw [jsonTypeToPython.eq_def, h]
    split
    · next heq => cases heq; exact absurd rfl h1
    · next heq => cases heq; exact absurd rfl h2
    · next heq => cases heq; exact absurd rfl h3
    · next heq => cases heq; exact absurd rfl h4
    · next heq => cases heq; exact absurd rfl h5
    · next heq => cases heq; exact absurd rfl h6
    · rfl
  · intro h; rw [jsonTypeToPython.eq_def, h]

/-- Witness for C1: the mapping evaluated at concrete schemas — a `"string"`
tag, an `"array"` tag without `items`, and an empty schema with no tag. -/
theorem C1_type_mapping_witness :
    jsonTypeToPython (.cons "type" (.jstr "string") .nil) = .ok .pyStr ∧
    jsonTypeToPython (.cons "type" (.jstr "array") .nil) = .ok (.pyList .pyAny) ∧
    jsonTypeToPython .nil = .ok .pyAny :=
  ⟨(C1_type_mapping _).1 rfl,
   (C1_type_mapping _).2.2.2.2.2.2.2.1 rfl rfl,
   (C1_type_mapping _).2.2.2.2.2.2.2.2.2 rfl⟩

/-- C2: in every compiled object schema that declares a `required` list, a
property named in that list becomes a mandatory field (default marker `...`,
i.e. no default), and every other declared property becomes optional with the
universal `None` default. -/
theorem C2_required_policy (s props : JsonObj) (req : JsonList)
    (hprops : s.find "properties" = some (.jobj props))
    (hreq : s.find "required" = some (.jarr req))
    (hnd : props.keys.Nodup)
    (n : String) (sch : Json) (hmem : props.find n = some sch) :
    ∃ fields ty ds,
      jsonSchemaToPydantic s = .ok (.model "DynamicModel" fields) ∧
      jsonTypeToPython sch.asObj = .ok ty ∧
      fields.find n = some (ty,
        (if req.containsStr n then DefaultVal.ellipsis else DefaultVal.pyNone), ds) := by
  have hreqlist : requiredList s = req := by
    unfold requiredList; rw [hreq]
  obtain ⟨out, hout, hnodup⟩ :=
    (compile_total props.size).2.1 (requiredList s) props .nil
      (Nat.le_refl _) Fields.namesNodup_nil
  obtain ⟨ty, hty, hfind⟩ := fieldsFromProps_find_mem hout hnd hmem
  refine ⟨out, ty,
    (if getDescription sch.asObj == "" then none else some (getDescription sch.asObj)),
    ?_, hty, ?_⟩
  · rw [jsonSchemaToPydantic.eq_def, hprops]
    simp only [Json.asObj]
    simp [hout, create_base_model, hnodup, Bind.bind, Except.bind]
  · rw [hreqlist] at hfind
    exact hfind

/-- The `properties` object of the running example: two properties, `age`
(integer) and `name` (string). -/
def egProps : JsonObj :=
  .cons "age" (.jobj (.cons "type" (.jstr "integer") .nil))
    (.cons "name" (.jobj (.cons "type" (.jstr "string") .nil)) .nil)

/-- The running example document
`{"properties": {"age": {"type": "integer"}, "name": {"type": "string"}},
"required": ["age"]}`. -/
def egSchema : JsonObj :=
  .cons "properties" (.jobj egProps)
    (.cons "required" (.jarr (.cons (.jstr "age") .nil)) .nil)

/-- Witness for C2: in the running example, `age` is mandatory and `name` is
optional with the `None` default. -/
theorem C2_required_policy_witness :
    (∃ fields ty ds,
      jsonSchemaToPydantic egSchema = .ok (.model "DynamicModel" fields) ∧
      jsonTypeToPython (.cons "type" (.jstr "integer") .nil) = .ok ty ∧
      fields.find "age" = some (ty, DefaultVal.ellipsis, ds)) ∧
    (∃ fields ty ds,
      jsonSchemaToPydantic egSchema = .ok (.model "DynamicModel" fields) ∧
      jsonTypeToPython (.cons "type" (.jstr "string") .nil) = .ok ty ∧
      fields.find "name" = some (ty, DefaultVal.pyNone, ds)) := by
  constructor
  · have h := C2_required_policy egSchema egProps (.cons (.jstr "age") .nil)
      rfl rfl (by decide) "age"
      (.jobj (.cons "type" (.jstr "integer") .nil)) rfl
    simpa [Json.asObj, JsonList.containsStr] using h
  · have h := C2_required_policy egSchema egProps (.cons (.jstr "age") .nil)
      rfl rfl (by decide) "name"
      (.jobj (.cons "type" (.jstr "string") .nil)) rfl
    simpa [Json.asObj, JsonList.containsStr] using h

/-- C4: `get_model` fails with the schema-miss `ValueError`
(spec: `SchemaNotFoundError`) when the schema name was never loaded, with the
model-miss `ValueError` (spec: `ModelNotFoundError`) when the schema is loaded
but the model is absent, and on every call returns the registry state
unchanged (no implicit load or other mutation). -/
theorem C4_get_model_errors (st : RegistryState) (schemaName modelName : String) :
    (assocFind st schemaName = none →
      get_model st schemaName modelName =
        (st, .error (.schemaNameNotFound schemaName))) ∧
    (∀ models, assocFind st schemaName = some models →
      assocFind models modelName = none →
      get_model st schemaName modelName =
        (st, .error (.modelNotFound schemaName modelName))) ∧
    (get_model st schemaName modelName).1 = st := by
  refine ⟨?_, ?_, ?_⟩
  · intro h; simp [get_model, h]
  · intro models h hm; simp [get_model, h, hm]
  · unfold get_model
    split
    · rfl
    · split <;> rfl

/-- Witness for C4: a registry holding one schema `"s"` with one model `"m"`:
a lookup under the unknown schema `"t"` and a lookup of the unknown model
`"x"` in `"s"` produce the two distinct errors, leaving the state intact. -/
theorem C4_get_model_errors_witness :
    get_model [("s", [("m", PyType.pyStr)])] "t" "m" =
      ([("s", [("m", PyType.pyStr)])], .error (.schemaNameNotFound "t")) ∧
    get_model [("s", [("m", PyType.pyStr)])] "s" "x" =
      ([("s", [("m", PyType.pyStr)])], .error (.modelNotFound "s" "x")) :=
  ⟨(C4_get_model_errors [("s", [("m", PyType.pyStr)])] "t" "m").1 rfl,
   (C4_get_model_errors [("s", [("m", PyType.pyStr)])] "s" "x").2.1
     [("m", PyType.pyStr)] rfl rfl⟩

/-- Every successful `load_schema` stored exactly the produced mapping under
`name` (`self._schemas[name] = models`). -/
theorem load_schema_ok_state {fs : FileSystem} {st st' : RegistryState}
    {name filePath : String} {basePath : Option String} {ms : Models}
    (h : load_schema fs st name filePath basePath = (st', .ok ms)) :
    st' = assocAssign st name ms := by
  unfold load_schema at h
  dsimp only at h
  split at h
  · simp at h
  · split at h
    · split at h
      · split at h
        · simp at h
          exact h.1.symm.trans (by rw [h.2])
        · simp at h
      · simp at h
    · split at h
      · split at h
        · simp at h
          exact h.1.symm.trans (by rw [h.2])
        · simp at h
      · simp at h

/-- C5: a later successful load under the same schema name fully replaces the
stored namespace with exactly the newly produced mapping: afterwards the
registry maps `name` to the new mapping alone, and `get_model` for any model
name absent from the new mapping (in particular one present only in an
earlier load) fails with the model-miss `ValueError`
(spec: `ModelNotFoundError`). -/
theorem C5_reload_replaces (fs : FileSystem) (st st' : RegistryState)
    (name filePath : String) (basePath : Option String) (ms : Models)
    (h : load_schema fs st name filePath basePath = (st', .ok ms)) :
    assocFind st' name = some ms ∧
    ∀ m, assocFind ms m = none →
      (get_model st' name m).2 = .error (.modelNotFound name m) := by
  have hst : st' = assocAssign st name ms := load_schema_ok_state h
  subst hst
  have hfind : assocFind (assocAssign st name ms) name = some ms :=
    assocFind_assign_self st name ms
  refine ⟨hfind, ?_⟩
  intro m hm
  simp [get_model, hfind, hm]

/-- Witness for C5: the registry already holds `"s"` with a model `"old"`
(as a first load would leave it); re-loading `"s"` from an empty Python
module replaces the namespace with the empty mapping, and looking up `"old"`
now fails with the model-miss error. -/
theorem C5_reload_replaces_witness :
    assocFind (load_schema [("a.py", .pyModule [])] [("s", [("old", PyType.pyStr)])]
        "s" "a.py" none).1 "s" = some [] ∧
    (get_model (load_schema [("a.py", .pyModule [])] [("s", [("old", PyType.pyStr)])]
        "s" "a.py" none).1 "s" "old").2 = .error (.modelNotFound "s" "old") := by
  have h := C5_reload_replaces [("a.py", .pyModule [])] [("s", [("old", PyType.pyStr)])]
    [("s", [])] "s" "a.py" none [] rfl
  exact ⟨h.1, h.2 "old" rfl⟩

/-- C6: `load_schema` fails with `FileNotFoundError`
(spec: `SchemaNotFoundError`) when the resolved path does not exist, and with
the unsupported-type `ValueError` (spec: `UnsupportedFormatError`) when the
file exists but its lowercased extension is neither `.json` nor `.py`; in
both cases the registry state is returned unchanged — no namespace for
`name` is created or partially populated. -/
theorem C6_load_failure_modes (fs : FileSystem) (st : RegistryState)
    (name filePath : String) (basePath : Option String) :
    (assocFind fs (resolvePath filePath basePath) = none →
      load_schema fs st name filePath basePath =
        (st, .error (.fileNotFound (resolvePath filePath basePath)))) ∧
    (∀ c, assocFind fs (resolvePath filePath basePath) = some c →
      fileExtLower (resolvePath filePath basePath) ≠ ".json" →
      fileExtLower (resolvePath filePath basePath) ≠ ".py" →
      load_schema fs st name filePath basePath =
        (st, .error (.unsupportedFileType (fileExtLower (resolvePath filePath basePath))))) := by
  constructor
  · intro h; unfold load_schema; dsimp only; rw [h]
  · intro c h hjson hpy
    unfold load_schema
    dsimp only
    rw [h]
    have hj : (fileExtLower (resolvePath filePath basePath) == ".json") = false := by
      simpa using hjson
    have hp2 : (fileExtLower (resolvePath filePath basePath) == ".py") = false := by
      simpa using hpy
    simp [hj, hp2]

/-- Witness for C6: loading the missing path `"absent.json"` fails with the
file-not-found error, and loading the existing `"notes.txt"` fails with the
unsupported-type error; the registry (holding an unrelated schema) is
unchanged in both cases. -/
theorem C6_load_failure_modes_witness :
    load_schema [("notes.txt", .otherText)] [("keep", [])] "n" "absent.json" none =
      ([("keep", [])], .error (.fileNotFound "absent.json")) ∧
    load_schema [("notes.txt", .otherText)] [("keep", [])] "n" "notes.txt" none =
      ([("keep", [])], .error (.unsupportedFileType ".txt")) :=
  ⟨(C6_load_failure_modes [("notes.txt", .otherText)] [("keep", [])]
      "n" "absent.json" none).1 rfl,
   (C6_load_failure_modes [("notes.txt", .otherText)] [("keep", [])]
      "n" "notes.txt" none).2 .otherText rfl (by decide) (by decide)⟩

/-- Inserting into a name-sorted list is a permutation of consing. -/
theorem insertByName_perm (x : String × PyAttr) (l : ModuleNS) :
    (insertByName x l).Perm (x :: l) := by
  induction l with
  | nil => simp [insertByName]
  | cons y ys ih =>
    by_cases h : x.1 < y.1
    · simp [insertByName, h]
    · simp only [insertByName, if_neg h]
      exact (List.Perm.cons y ih).trans (List.Perm.swap x y ys)

/-- `dir(module)` lists the same attributes, in sorted order. -/
theorem dirSorted_perm (ns : ModuleNS) : (dirSorted ns).Perm ns := by
  induction ns with
  | nil => simp [dirSorted]
  | cons a l ih =>
    have : dirSorted (a :: l) = insertByName a (dirSorted l) := rfl
    rw [this]
    exact (insertByName_perm a (dirSorted l)).trans (List.Perm.cons a ih)

/-- Attribute names the loop never sees keep their binding from the
accumulator. -/
theorem harvest_foldl_not_mem : ∀ {l : List (String × PyAttr)} {acc : Models}
    {n : String}, (∀ a, (n, a) ∉ l) →
    assocFind (l.foldl harvestStep acc) n = assocFind acc n
  | [], _, _, _ => rfl
  | (k, a) :: rest, acc, n, h => by
    have hk : k ≠ n := by
      intro hkn
      exact h a (by rw [hkn]; exact List.mem_cons_self _ _)
    have hrest : ∀ a2, (n, a2) ∉ rest := fun a2 hmem =>
      h a2 (List.mem_cons_of_mem _ hmem)
    rw [List.foldl_cons, harvest_foldl_not_mem hrest]
    cases a with
    | baseModelSub t => simp [harvestStep, assocFind_assign_ne _ _ _ _ hk]
    | baseModelItself => rfl
    | other => rfl

/-- A `BaseModel` subclass attribute ends up in the mapping under its name. -/
theorem harvest_foldl_mem_sub : ∀ {l : List (String × PyAttr)} {acc : Models}
    {n : String} {t : PyType},
    (l.map Prod.fst).Nodup → (n, .baseModelSub t) ∈ l →
    assocFind (l.foldl harvestStep acc) n = some t
  | [], _, _, _, _, hm => by simp at hm
  | (k, a) :: rest, acc, n, t, hnd, hm => by
    simp only [List.map_cons, List.nodup_cons] at hnd
    rcases List.mem_cons.mp hm with heq | hmem
    · have h1 := congrArg Prod.fst heq
      have h2 := congrArg Prod.snd heq
      simp only at h1 h2
      subst h1
      subst h2
      have hrest : ∀ a2, (n, a2) ∉ rest := fun a2 hmem2 =>
        hnd.1 (List.mem_map_of_mem Prod.fst hmem2)
      rw [List.foldl_cons, harvest_foldl_not_mem hrest]
      simp [harvestStep, assocFind_assign_self]
    · rw [List.foldl_cons]
      exact harvest_foldl_mem_sub hnd.2 hmem

/-- An attribute that is not a proper `BaseModel` subclass contributes
nothing. -/
theorem harvest_foldl_mem_other : ∀ {l : List (String × PyAttr)} {acc : Models}
    {n : String} {attr : PyAttr},
    (l.map Prod.fst).Nodup → (n, attr) ∈ l →
    (∀ t, attr ≠ .baseModelSub t) →
    assocFind (l.foldl harvestStep acc) n = assocFind acc n
  | [], _, _, _, _, hm, _ => by simp at hm
  | (k, a) :: rest, acc, n, attr, hnd, hm, hna => by
    simp only [List.map_cons, List.nodup_cons] at hnd
    rcases List.mem_cons.mp hm with heq | hmem
    · have h1 := congrArg Prod.fst heq
      have h2 := congrArg Prod.snd heq
      simp only at h1 h2
      subst h1
      subst h2
      have hrest : ∀ a2, (n, a2) ∉ rest := fun a2 hmem2 =>
        hnd.1 (List.mem_map_of_mem Prod.fst hmem2)
      rw [List.foldl_cons, harvest_foldl_not_mem hrest]
      cases attr with
      | baseModelSub t => exact absurd rfl (hna t)
      | baseModelItself => rfl
      | other => rfl
    · have hk : k ≠ n := by
        intro hkn
        exact hnd.1 (hkn ▸ List.mem_map_of_mem Prod.fst hmem)
      rw [List.foldl_cons, harvest_foldl_mem_other hnd.2 hmem hna]
      cases a with
      | baseModelSub t2 => simp [harvestStep, assocFind_assign_ne _ _ _ _ hk]
      | baseModelItself => rfl
      | other => rfl

/-- C8: the mapping returned for a loaded module holds exactly the module's
top-level attributes that are proper `BaseModel` subclasses, each under its
declared name; the `BaseModel` class itself is never included even when it is
visible in the namespace. -/
theorem C8_python_harvest (ns : ModuleNS) (hnd : (ns.map Prod.fst).Nodup) :
    (∀ n t, assocFind (harvestModels ns) n = some t ↔ (n, .baseModelSub t) ∈ ns) ∧
    (∀ n, (n, .baseModelItself) ∈ ns → assocFind (harvestModels ns) n = none) := by
  have hperm := dirSorted_perm ns
  have hnd2 : ((dirSorted ns).map Prod.fst).Nodup :=
    (hperm.map Prod.fst).nodup_iff.mpr hnd
  constructor
  · intro n t
    constructor
    · intro hfind
      by_cases hex : ∃ a, (n, a) ∈ dirSorted ns
      · obtain ⟨a, ha⟩ := hex
        cases a with
        | baseModelSub t2 =>
          rw [harvestModels, harvest_foldl_mem_sub hnd2 ha] at hfind
          cases hfind
          exact hperm.mem_iff.mp ha
        | baseModelItself =>
          rw [harvestModels,
            harvest_foldl_mem_other hnd2 ha (by intro t2 hc; cases hc)] at hfind
          cases hfind
        | other =>
          rw [harvestModels,
            harvest_foldl_mem_other hnd2 ha (by intro t2 hc; cases hc)] at hfind
          cases hfind
      · have hnot : ∀ a, (n, a) ∉ dirSorted ns := fun a ha => hex ⟨a, ha⟩
        rw [harvestModels, harvest_foldl_not_mem hnot] at hfind
        cases hfind
    · intro hmem
      rw [harvestModels]
      exact harvest_foldl_mem_sub hnd2 (hperm.mem_iff.mpr hmem)
  · intro n hmem
    rw [harvestModels]
    exact harvest_foldl_mem_other hnd2 (hperm.mem_iff.mpr hmem)
      (by intro t2 hc; cases hc)

/-- Witness for C8: a module exposing the models `Alpha` and `Zeta`, the
imported `BaseModel` class itself, and a plain attribute `x`: the harvest
keeps exactly `Alpha` and `Zeta` and drops `BaseModel`. -/
theorem C8_python_harvest_witness :
    assocFind (harvestModels
      [("Zeta", .baseModelSub .pyAny), ("BaseModel", .baseModelItself),
       ("Alpha", .baseModelSub .pyStr), ("x", .other)]) "Alpha" = some .pyStr ∧
    assocFind (harvestModels
      [("Zeta", .baseModelSub .pyAny), ("BaseModel", .baseModelItself),
       ("Alpha", .baseModelSub .pyStr), ("x", .other)]) "BaseModel" = none :=
  ⟨((C8_python_harvest
      [("Zeta", .baseModelSub .pyAny), ("BaseModel", .baseModelItself),
       ("Alpha", .baseModelSub .pyStr), ("x", .other)] (by decide)).1
      "Alpha" .pyStr).mpr (by decide),
   (C8_python_harvest
      [("Zeta", .baseModelSub .pyAny), ("BaseModel", .baseModelItself),
       ("Alpha", .baseModelSub .pyStr), ("x", .other)] (by decide)).2
      "BaseModel" (by decide)⟩

/-- C9: the Dynamic Type Factory rejects a field-specification list in which
two fields share a name, failing with `DuplicateFieldError` instead of
silently keeping one of the two (spec §4.1; the factory itself,
`create_base_model`, is modelled from the spec). -/
theorem C9_duplicate_fields (name : String) (fields : Fields)
    (h : ¬ fields.namesNodup) :
    create_base_model name fields = .error .duplicateFieldError := by
  unfold create_base_model
  rw [if_neg h]

/-- The spec's nested object schema
`{"type": "object", "properties": {"city": {"type": "string"}}}`. -/
def egAddress : Json :=
  .jobj (.cons "type" (.jstr "object")
    (.cons "properties"
      (.jobj (.cons "city" (.jobj (.cons "type" (.jstr "string") .nil)) .nil)) .nil))

/-- The spec's concrete scenario document
`{"properties": {"age": {"type": "integer"}, "address": {"type": "object",
"properties": {"city": {"type": "string"}}}}}` (without `required`,
irrelevant here). -/
def egDoc3 : Json :=
  .jobj (.cons "properties"
    (.jobj (.cons "age" (.jobj (.cons "type" (.jstr "integer") .nil))
      (.cons "address" egAddress .nil))) .nil)

/-- When a schema declares `properties`, its compiled model's field
dictionary is exactly the one the property loop builds. -/
theorem jsonSchemaToPydantic_props {s props : JsonObj}
    (hprops : s.find "properties" = some (.jobj props)) :
    ∃ fs, jsonSchemaToPydantic s = .ok (.model "DynamicModel" fs) ∧
      fieldsFromProps (requiredList s) props .nil = .ok fs := by
  obtain ⟨out, hout, hnodup⟩ :=
    (compile_total props.size).2.1 (requiredList s) props .nil
      (Nat.le_refl _) Fields.namesNodup_nil
  refine ⟨out, ?_, hout⟩
  rw [jsonSchemaToPydantic.eq_def, hprops]
  simp only [Json.asObj]
  simp [hout, create_base_model, hnodup, Bind.bind, Except.bind]

/-- C3 (amended): for every root property whose schema is object-kinded with
a `properties` entry, compiling the document yields — in addition to the root
model — a sibling model under the property's name, and that sibling is
literally the same model as the nested type inlined as the root model's field
type for that property; provided the document's `definitions` entry (if any)
does not also bind the property's name, which would overwrite the sibling. -/
theorem C3_sibling_models (name : String) (doc : Json) (props : JsonObj)
    (hprops : doc.getKey "properties" = some (.jobj props))
    (hnd : props.keys.Nodup)
    (n : String) (psch : Json) (hmem : props.find n = some psch)
    (hqual : qualifiesProp psch)
    (hdefs : ∀ defs, doc.getKey "definitions" = some defs →
      defs.asObj.find n = none) :
    ∃ out rootFields nested d ds,
      loadJsonModels name doc = .ok out ∧
      jsonSchemaToPydantic doc.asObj = .ok (.model "DynamicModel" rootFields) ∧
      rootFields.find n = some (nested, d, ds) ∧
      jsonSchemaToPydantic psch.asObj = .ok nested ∧
      assocFind out n = some nested := by
  have hprops' : doc.asObj.find "properties" = some (.jobj props) := hprops
  obtain ⟨rootFs0, hroot0, hff⟩ := jsonSchemaToPydantic_props hprops'
  obtain ⟨ty, hty, hfield⟩ := fieldsFromProps_find_mem hff hnd hmem
  rw [jsonTypeToPython_object_props hqual.1 hqual.2] at hty
  obtain ⟨rootFs, ms, out, hroot, hms, hload, hnone, hsome⟩ :=
    loadJsonModels_decompose hprops
  obtain ⟨pm, hpm, hfindms⟩ := addPropModels_find_mem hms hnd hmem hqual
  have hpmty : pm = ty := by
    have h1 := hpm.symm.trans hty
    simpa using h1
  subst hpmty
  have hfinal : assocFind out n = some pm := by
    cases hd : doc.getKey "definitions" with
    | none => rw [hnone hd]; exact hfindms
    | some defs => rw [hsome n defs hd (hdefs defs hd)]; exact hfindms
  exact ⟨out, rootFs0, pm, _, _, hload, hroot0, hfield, hpm, hfinal⟩

/-- Witness for C3: in
`{"properties": {"age": {"type": "integer"}, "address": {"type": "object",
"properties": {"city": {"type": "string"}}}}}` compiled under root name
`"Person"`, the `address` sibling model exists and equals the root model's
inlined `address` field type. -/
theorem C3_sibling_models_witness :
    ∃ out rootFields nested d ds,
      loadJsonModels "Person" egDoc3 = .ok out ∧
      jsonSchemaToPydantic egDoc3.asObj = .ok (.model "DynamicModel" rootFields) ∧
      rootFields.find "address" = some (nested, d, ds) ∧
      jsonSchemaToPydantic egAddress.asObj = .ok nested ∧
      assocFind out "address" = some nested :=
  C3_sibling_models "Person" egDoc3
    (.cons "age" (.jobj (.cons "type" (.jstr "integer") .nil))
      (.cons "address" egAddress .nil))
    rfl (by decide) "address" egAddress rfl (by decide)
    (by
      intro defs hd
      rw [show egDoc3.getKey "definitions" = (none : Option Json) from rfl] at hd
      cases hd)

/-- A document whose `definitions` entry reuses the name of a nested object
property: `{"properties": {"address": {...}}, "definitions": {"address": {}}}`. -/
def egDocDefShadow : Json :=
  .jobj (.cons "properties" (.jobj (.cons "address" egAddress .nil))
    (.cons "definitions" (.jobj (.cons "address" (.jobj .nil) .nil)) .nil))

/-- Counterexample for C3 as stated: with a `definitions` entry named like
the nested object property, the definitions loop overwrites the sibling
model.  The compiled mapping binds `"address"` to the empty model compiled
from the definition, which is not field-for-field identical to the nested
`{"city": string}` type inlined in the root model's `address` field. -/
theorem C3_sibling_models_counterexample :
    loadJsonModels "Person" egDocDefShadow =
      .ok [("Person", .model "DynamicModel"
          (.cons "address" (.model "DynamicModel"
            (.cons "city" .pyStr .pyNone none .nil)) .pyNone none .nil)),
        ("address", .model "DynamicModel" .nil)] ∧
    assocFind [("Person", PyType.model "DynamicModel"
          (.cons "address" (.model "DynamicModel"
            (.cons "city" .pyStr .pyNone none .nil)) .pyNone none .nil)),
        ("address", PyType.model "DynamicModel" .nil)] "address" =
      some (.model "DynamicModel" .nil) ∧
    (PyType.model "DynamicModel" Fields.nil) ≠
      (PyType.model "DynamicModel" (.cons "city" .pyStr .pyNone none .nil)) := by
  refine ⟨?_, rfl, by decide⟩
  simp [loadJsonModels, addPropModels, addDefModels, jsonSchemaToPydantic,
    fieldsFromProps, jsonTypeToPython, create_base_model, requiredList,
    getDescription, Json.asObj, Json.getKey, JsonObj.find, assocAssign,
    Fields.assign, Fields.namesNodup, Fields.names, Bind.bind, Except.bind,
    pure, Except.pure, JsonList.containsStr, egDocDefShadow, egAddress]

/-- A document with a single object-typed property whose name will collide
with the supplied root name:
`{"properties": {"P": {"type": "object", "properties": {"x": {"type":
"string"}}}}}`. -/
def egDocRootCollision : Json :=
  .jobj (.cons "properties"
    (.jobj (.cons "P"
      (.jobj (.cons "type" (.jstr "object")
        (.cons "properties"
          (.jobj (.cons "x" (.jobj (.cons "type" (.jstr "string") .nil)) .nil))
          .nil)))
      .nil)) .nil)

/-- Counterexample for C7 as stated: compiling under root name `"P"`, which
is also the name of a qualifying object property, leaves a mapping whose only
entry is the property's sibling model; the root descriptor (whose single
field is `P`) is built but then overwritten, so it is not included in the
returned mapping. -/
theorem C7_root_descriptor_counterexample :
    loadJsonModels "P" egDocRootCollision =
      .ok [("P", .model "DynamicModel" (.cons "x" .pyStr .pyNone none .nil))] ∧
    jsonSchemaToPydantic egDocRootCollision.asObj =
      .ok (.model "DynamicModel"
        (.cons "P" (.model "DynamicModel" (.cons "x" .pyStr .pyNone none .nil))
          .pyNone none .nil)) ∧
    (PyType.model "DynamicModel" (.cons "x" .pyStr .pyNone none .nil)) ≠
      (PyType.model "DynamicModel"
        (.cons "P" (.model "DynamicModel" (.cons "x" .pyStr .pyNone none .nil))
          .pyNone none .nil)) := by
  refine ⟨?_, ?_, by decide⟩
  · simp [loadJsonModels, addPropModels, addDefModels, jsonSchemaToPydantic,
      fieldsFromProps, jsonTypeToPython, create_base_model, requiredList,
      getDescription, Json.asObj, Json.getKey, JsonObj.find, assocAssign,
      Fields.assign, Fields.namesNodup, Fields.names, Bind.bind, Except.bind,
      pure, Except.pure, JsonList.containsStr, egDocRootCollision]
  · simp [jsonSchemaToPydantic, fieldsFromProps, jsonTypeToPython,
      create_base_model, requiredList, getDescription, Json.asObj, Json.getKey,
      JsonObj.find, Fields.assign, Fields.namesNodup, Fields.names, Bind.bind,
      Except.bind, pure, Except.pure, JsonList.containsStr, egDocRootCollision]

/-- C7 (amended): for every document with a `properties` entry, compilation
builds the root model and the returned mapping binds the supplied root name
to it; provided the root name is not also the name of a qualifying
(object-with-`properties`) root property or of a definition, either of which
would overwrite the root entry. -/
theorem C7_root_descriptor (name : String) (doc : Json) (pv : Json)
    (hprops : doc.getKey "properties" = some pv)
    (hnoprop : ∀ v, (name, v) ∈ pv.asObj.entriesList → ¬ qualifiesProp v)
    (hnodef : ∀ defs, doc.getKey "definitions" = some defs →
      defs.asObj.find name = none) :
    ∃ out rootModel,
      loadJsonModels name doc = .ok out ∧
      jsonSchemaToPydantic doc.asObj = .ok rootModel ∧
      assocFind out name = some rootModel := by
  obtain ⟨rootFs, ms, out, hroot, hms, hload, hnone, hsome⟩ :=
    loadJsonModels_decompose hprops
  have hms_name : assocFind ms name = some (.model "DynamicModel" rootFs) := by
    rw [addPropModels_preserve hms hnoprop, assocFind_assign_self]
  refine ⟨out, _, hload, hroot, ?_⟩
  cases hd : doc.getKey "definitions" with
  | none => rw [hnone hd]; exact hms_name
  | some defs => rw [hsome name defs hd (hnodef defs hd)]; exact hms_name

/-- Witness for C7: the same document compiled under root name `"Person"`
(which collides with no property or definition name) stores the root model
under `"Person"`. -/
theorem C7_root_descriptor_witness :
    ∃ out rootModel,
      loadJsonModels "Person" egDoc3 = .ok out ∧
      jsonSchemaToPydantic egDoc3.asObj = .ok rootModel ∧
      assocFind out "Person" = some rootModel :=
  C7_root_descriptor "Person" egDoc3
    (.jobj (.cons "age" (.jobj (.cons "type" (.jstr "integer") .nil))
      (.cons "address" egAddress .nil)))
    rfl
    (by
      intro v hv
      simp [egDoc3, egAddress, Json.asObj, JsonObj.entriesList] at hv)
    (by
      intro defs hd
      rw [show egDoc3.getKey "definitions" = (none : Option Json) from rfl] at hd
      cases hd)

/-- Witness for C9: two fields both named `"a"` are rejected. -/
theorem C9_duplicate_fields_witness :
    create_base_model "M"
      (.cons "a" .pyStr .pyNone none (.cons "a" .pyInt .pyNone none .nil)) =
      .error .duplicateFieldError :=
  C9_duplicate_fields "M"
    (.cons "a" .pyStr .pyNone none (.cons "a" .pyInt .pyNone none .nil))
    (by decide)

/-- C10: loading a `.json` file whose document is an object with neither a
`properties` nor a `definitions` entry succeeds, registers the empty model
mapping under the schema name, returns it, and afterwards `get_model` under
that schema name fails with the model-miss `ValueError`
(spec: `ModelNotFoundError`) — not the schema-miss error — for every model
name. -/
theorem C10_empty_document (fs : FileSystem) (st : RegistryState)
    (name filePath : String) (basePath : Option String) (doc : Json)
    (hfound : assocFind fs (resolvePath filePath basePath) = some (.jsonDoc doc))
    (hext : fileExtLower (resolvePath filePath basePath) = ".json")
    (hp : doc.getKey "properties" = none)
    (hd : doc.getKey "definitions" = none) :
    load_schema fs st name filePath basePath = (assocAssign st name [], .ok []) ∧
    ∀ m, (get_model (assocAssign st name []) name m).2 =
      .error (.modelNotFound name m) := by
  have hload : loadJsonModels name doc = .ok [] := by
    unfold loadJsonModels
    rw [hp, hd]
    rfl
  constructor
  · unfold load_schema
    dsimp only
    rw [hfound, hext]
    simp [hload]
  · intro m
    simp [get_model, assocFind_assign_self, assocFind]

/-- Witness for C10: loading the empty document `{}` from `"empty.json"`
registers the empty namespace `"e"`, and `get_model "e" "anything"` then
reports the model-miss error. -/
theorem C10_empty_document_witness :
    load_schema [("empty.json", .jsonDoc (.jobj .nil))] [] "e" "empty.json" none =
      (assocAssign [] "e" [], .ok []) ∧
    (get_model (assocAssign [] "e" []) "e" "anything").2 =
      .error (.modelNotFound "e" "anything") := by
  have h := C10_empty_document [("empty.json", .jsonDoc (.jobj .nil))] []
    "e" "empty.json" none (.jobj .nil) rfl rfl rfl rfl
  exact ⟨h.1, h.2 "anything"⟩

end Nomos
